import Mathlib

/-!
Shallow embedding of the frame-detection pipeline of `src/server/app.py`
(classes `DetectionServer` and `WebRTCHandler`), together with theorems
settling the specification claims about it.

Modelling conventions:
* Python floats are modelled as rationals (`ℚ`); the claims under study are
  about algorithmic structure (comparisons, clipping, division), not about
  rounding of IEEE floating point.
* Python ints are `ℤ` (or `ℕ` for sizes/counters that are never negative).
* The inference engine is an external collaborator; a call to it is modelled
  by an oracle value `Except Unit (List (List ℚ))`: either a failure
  (covering every exception raised inside the `try` block of
  `process_frame` at the inference/decode stage) or the list of raw output
  rows handed to `postprocess_output`.
* The three transform attributes `last_scale`, `last_dw`, `last_dh` are
  modelled as `Option ℚ` fields so that the `hasattr` guard of
  `postprocess_output` (line 209) is expressible: `some` means the
  attribute is present, `none` means it is absent.
* Clock readings (`time.time()`), frame identifiers and frame pixel data are
  parameters; only the frame dimensions matter to the modelled code.
-/

set_option linter.unusedVariables false

namespace WebRTCDetection

/-- Tensor layout of the model input, `app.py` line 40: `NCHW` is
channel-first, `NHWC` is channel-last. -/
inductive Layout
  | NCHW
  | NHWC
deriving DecidableEq, Repr

/-- A decoded detection dict as built by `postprocess_output`
(`app.py` lines 238-245): keys `label`, `score`, `xmin`, `ymin`,
`xmax`, `ymax`. -/
structure Detection where
  label : String
  score : ℚ
  xmin : ℚ
  ymin : ℚ
  xmax : ℚ
  ymax : ℚ
deriving DecidableEq, Repr

/-- Model of `DetectionServer._calculate_iou` (`app.py` lines 275-293): intersection
over union of two boxes, `0.0` when there is no overlap or the union area is
not positive. -/
def calculate_iou (box1 box2 : Detection) : ℚ :=
  let x_left := max box1.xmin box2.xmin
  let y_top := max box1.ymin box2.ymin
  let x_right := min box1.xmax box2.xmax
  let y_bottom := min box1.ymax box2.ymax
  if x_right < x_left ∨ y_bottom < y_top then 0
  else
    let intersection := (x_right - x_left) * (y_bottom - y_top)
    let area1 := (box1.xmax - box1.xmin) * (box1.ymax - box1.ymin)
    let area2 := (box2.xmax - box2.xmin) * (box2.ymax - box2.ymin)
    let union := area1 + area2 - intersection
    if 0 < union then intersection / union else 0

/-- Stable descending insertion by score.  `app.py` line 259 sorts with
the stable Python sort, key `score`, `reverse=True`; a stable insertion sort
computes the same list. -/
def insertByScore (d : Detection) : List Detection → List Detection
  | [] => [d]
  | e :: rest => if e.score ≤ d.score then d :: e :: rest else e :: insertByScore d rest

/-- The sorted detection list of `app.py` line 259 (descending by score,
stable). -/
def sortByScoreDesc (l : List Detection) : List Detection :=
  l.foldr insertByScore []

/-- The greedy suppression loop of `_apply_nms` (`app.py` lines 261-271):
keep the head, drop every later detection whose IoU with it is at or above
the threshold, recurse on the survivors. -/
def nmsLoop (threshold : ℚ) : List Detection → List Detection
  | [] => []
  | current :: rest =>
      current :: nmsLoop threshold (rest.filter fun det => calculate_iou current det < threshold)
termination_by l => l.length
decreasing_by
  simp only [List.length_cons]
  exact Nat.lt_succ_of_le (List.length_filter_le _ _)

/-- Model of `DetectionServer._apply_nms` (`app.py` lines 250-273): sort by score
descending, then run the greedy suppression loop. -/
def apply_nms (threshold : ℚ) (detections : List Detection) : List Detection :=
  nmsLoop threshold (sortByScoreDesc detections)

/-- Index of the first maximal element, the behaviour of `np.argmax`
(`app.py` line 193); `0` on the empty list (where NumPy would raise). -/
def argmaxIdx : List ℚ → ℕ
  | [] => 0
  | [_] => 0
  | a :: b :: rest =>
      if (b :: rest).getD (argmaxIdx (b :: rest)) 0 > a then argmaxIdx (b :: rest) + 1
      else 0

/-- The 80 COCO class names returned by `_get_coco_classes`
(`app.py` lines 392-407). -/
def coco_classes : List String :=
  ["person", "bicycle", "car", "motorcycle", "airplane", "bus", "train", "truck",
   "boat", "traffic light", "fire hydrant", "stop sign", "parking meter", "bench",
   "bird", "cat", "dog", "horse", "sheep", "cow", "elephant", "bear", "zebra",
   "giraffe", "backpack", "umbrella", "handbag", "tie", "suitcase", "frisbee",
   "skis", "snowboard", "sports ball", "kite", "baseball bat", "baseball glove",
   "skateboard", "surfboard", "tennis racket", "bottle", "wine glass", "cup",
   "fork", "knife", "spoon", "bowl", "banana", "apple", "sandwich", "orange",
   "broccoli", "carrot", "hot dog", "pizza", "donut", "cake", "chair", "couch",
   "potted plant", "bed", "dining table", "toilet", "tv", "laptop", "mouse",
   "remote", "keyboard", "cell phone", "microwave", "oven", "toaster", "sink",
   "refrigerator", "book", "clock", "vase", "scissors", "teddy bear", "hair drier",
   "toothbrush"]

/-- Normalized corner coordinates produced by the coordinate conversion part
of `postprocess_output`. -/
structure Coords where
  xmin : ℚ
  ymin : ℚ
  xmax : ℚ
  ymax : ℚ
deriving DecidableEq, Repr

/-- The main (letterbox-aware) coordinate conversion of `postprocess_output`
(`app.py` lines 210-226): subtract the pad, divide by the scale, clip each
coordinate to `[0, origDim - 1]`, then normalize by the original frame
dimensions. -/
def transformMain (scale dw dh : ℚ) (orig_width orig_height : ℕ)
    (x1 y1 x2 y2 : ℚ) : Coords :=
  let x1 := (x1 - dw) / scale
  let y1 := (y1 - dh) / scale
  let x2 := (x2 - dw) / scale
  let y2 := (y2 - dh) / scale
  let x1 := max 0 (min ((orig_width : ℚ) - 1) x1)
  let y1 := max 0 (min ((orig_height : ℚ) - 1) y1)
  let x2 := max 0 (min ((orig_width : ℚ) - 1) x2)
  let y2 := max 0 (min ((orig_height : ℚ) - 1) y2)
  ⟨x1 / (orig_width : ℚ), y1 / (orig_height : ℚ),
   x2 / (orig_width : ℚ), y2 / (orig_height : ℚ)⟩

/-- The fallback coordinate conversion of `postprocess_output`
(`app.py` lines 227-232), taken only when one of the transform attributes is
absent: direct normalization by the model input dimensions. -/
def transformFallback (model_width model_height : ℤ) (x1 y1 x2 y2 : ℚ) : Coords :=
  ⟨max 0 (x1 / (model_width : ℚ)), max 0 (y1 / (model_height : ℚ)),
   min 1 (x2 / (model_width : ℚ)), min 1 (y2 / (model_height : ℚ))⟩

/-- The mutable state of the global `DetectionServer` object
(`app.py` lines 34-50).  `last_scale`, `last_dw`, `last_dh` are `Option`s so
that the `hasattr` guard of `postprocess_output` is expressible; `__init__`
sets all three (lines 48-50), hence `initServer` uses `some`. -/
structure ServerState where
  model_loaded : Bool
  model_width : ℤ
  model_height : ℤ
  input_layout : Layout
  confidence_threshold : ℚ
  nms_threshold : ℚ
  classes : List String
  frame_count : ℕ
  processing_times : List ℚ
  last_scale : Option ℚ
  last_dw : Option ℚ
  last_dh : Option ℚ
deriving DecidableEq, Repr

/-- State after `DetectionServer.__init__` (`app.py` lines 34-50):
defaults 640×640 `NCHW`, thresholds 0.5 and 0.4, COCO classes, empty
performance window, transform attributes present with values 1.0, 0, 0. -/
def initServer : ServerState :=
  { model_loaded := false
    model_width := 640
    model_height := 640
    input_layout := Layout.NCHW
    confidence_threshold := 1 / 2
    nms_threshold := 2 / 5
    classes := coco_classes
    frame_count := 0
    processing_times := []
    last_scale := some 1
    last_dw := some 0
    last_dh := some 0 }

/-- The metadata-driven layout resolution inside `DetectionServer.initialize`
(`app.py` lines 87-116).  Input `none` models a metadata inspection failure
(the inner `except`, lines 113-116); `some shape` is the declared input
shape.  Returns `(layout, model_height, model_width)`. -/
def resolveInputMeta : Option (List ℤ) → Layout × ℤ × ℤ
  | none => (Layout.NCHW, 640, 640)
  | some shape =>
      if shape.length = 4 then
        if shape.getD 1 0 = 3 ∧ 0 < shape.getD 2 0 ∧ 0 < shape.getD 3 0 then
          let h := if 0 < shape.getD 2 0 then shape.getD 2 0 else 640
          let w := if 0 < shape.getD 3 0 then shape.getD 3 0 else h
          (Layout.NCHW, h, w)
        else if shape.getD 3 0 = 3 ∧ 0 < shape.getD 1 0 ∧ 0 < shape.getD 2 0 then
          let h := if 0 < shape.getD 1 0 then shape.getD 1 0 else 416
          let w := if 0 < shape.getD 2 0 then shape.getD 2 0 else h
          (Layout.NHWC, h, w)
        else (Layout.NCHW, 640, 640)
      else (Layout.NCHW, 640, 640)

/-- Model of `DetectionServer.initialize` (`app.py` lines 52-124) as a state update:
if the runtime is unavailable or loading the model raises, `model_loaded`
stays `False`; otherwise the input metadata (possibly unparsable, `meta =
none`) configures layout and dimensions and `model_loaded` becomes `True`.
Never raises: every failure is absorbed into mock mode. -/
def initModel (s : ServerState) (onnx_available load_ok : Bool)
    (meta : Option (List ℤ)) : ServerState :=
  if onnx_available = false then { s with model_loaded := false }
  else if load_ok = false then { s with model_loaded := false }
  else
    let r := resolveInputMeta meta
    { s with input_layout := r.1, model_height := r.2.1, model_width := r.2.2,
             model_loaded := true }

/-- The transform-parameter side effects of `preprocess_frame`
(`app.py` lines 126-171).  The tensor itself is irrelevant to the claims
(inference is an oracle); what matters is which `last_scale` / `last_dw` /
`last_dh` the method stores.  Letterbox branch when the layout is `NHWC`
with target width 416 (lines 128-155), stretch branch otherwise
(lines 157-169). -/
def preprocess_frame (s : ServerState) (frame_w frame_h : ℕ) : ServerState :=
  if s.input_layout = Layout.NHWC ∧ s.model_width = 416 then
    let scale := min ((s.model_width : ℚ) / (frame_w : ℚ))
                     ((s.model_height : ℚ) / (frame_h : ℚ))
    let nw : ℤ := ⌊scale * (frame_w : ℚ)⌋
    let nh : ℤ := ⌊scale * (frame_h : ℚ)⌋
    let dw : ℤ := (s.model_width - nw) / 2
    let dh : ℤ := (s.model_height - nh) / 2
    { s with last_scale := some scale, last_dw := some (dw : ℚ),
             last_dh := some (dh : ℚ) }
  else
    { s with
        last_scale := some (min ((s.model_width : ℚ) / (frame_w : ℚ))
                                ((s.model_height : ℚ) / (frame_h : ℚ)))
        last_dw := some 0
        last_dh := some 0 }

/-- The coordinate pipeline of one row of `postprocess_output`
(`app.py` lines 199-232): read the center-form box, convert to corner form,
then apply the main transform when all three transform attributes are
present (the `hasattr` guard, line 209) and the fallback otherwise. -/
def rowCoords (s : ServerState) (orig_width orig_height : ℕ) (row : List ℚ) : Coords :=
  let x_center := row.getD 0 0
  let y_center := row.getD 1 0
  let width := row.getD 2 0
  let height := row.getD 3 0
  let x1 := x_center - width / 2
  let y1 := y_center - height / 2
  let x2 := x_center + width / 2
  let y2 := y_center + height / 2
  match s.last_scale, s.last_dw, s.last_dh with
  | some scale, some dw, some dh =>
      transformMain scale dw dh orig_width orig_height x1 y1 x2 y2
  | _, _, _ =>
      transformFallback s.model_width s.model_height x1 y1 x2 y2

/-- One iteration of the `for detection in batch_detections` loop of
`postprocess_output` (`app.py` lines 190-245): scores are `row[5:]`,
`class_id` the argmax, confidence `row[4] * scores[class_id]`; rows below
the confidence threshold are skipped, then the converted box is dropped if
degenerate (`xmax ≤ xmin` or `ymax ≤ ymin`), otherwise a labeled detection
is emitted.  (`classes[class_id]` is modelled with a `""` default; every
use considered keeps the index in range.) -/
def decodeRow (s : ServerState) (orig_width orig_height : ℕ) (row : List ℚ) :
    Option Detection :=
  let scores := row.drop 5
  let class_id := argmaxIdx scores
  let confidence := row.getD 4 0 * scores.getD class_id 0
  if confidence < s.confidence_threshold then none
  else
    let c := rowCoords s orig_width orig_height row
    if c.xmax ≤ c.xmin ∨ c.ymax ≤ c.ymin then none
    else some ⟨s.classes.getD class_id (""), confidence, c.xmin, c.ymin, c.xmax, c.ymax⟩

/-- The row decoder specialised to the main (subtract-pad, divide-by-scale,
clip) conversion, with no fallback branch; used to state that on every
reachable state `decodeRow` coincides with it. -/
def decodeRowNoFallback (scale dw dh cth : ℚ) (classes : List String)
    (orig_width orig_height : ℕ) (row : List ℚ) : Option Detection :=
  let scores := row.drop 5
  let class_id := argmaxIdx scores
  let confidence := row.getD 4 0 * scores.getD class_id 0
  if confidence < cth then none
  else
    let x_center := row.getD 0 0
    let y_center := row.getD 1 0
    let width := row.getD 2 0
    let height := row.getD 3 0
    let c := transformMain scale dw dh orig_width orig_height
        (x_center - width / 2) (y_center - height / 2)
        (x_center + width / 2) (y_center + height / 2)
    if c.xmax ≤ c.xmin ∨ c.ymax ≤ c.ymin then none
    else some ⟨classes.getD class_id (""), confidence, c.xmin, c.ymin, c.xmax, c.ymax⟩

/-- Model of `DetectionServer.postprocess_output` (`app.py` lines 173-248): decode
every raw output row, then apply NMS with the configured threshold. -/
def postprocess_output (s : ServerState) (rows : List (List ℚ))
    (orig_width orig_height : ℕ) : List Detection :=
  apply_nms s.nms_threshold (rows.filterMap (decodeRow s orig_width orig_height))

/-- The performance-window update of `process_frame`
(`app.py` lines 325-330): append the latency, then drop the oldest sample
if the window now exceeds 100 entries. -/
def recordLatency (w : List ℚ) (t : ℚ) : List ℚ :=
  let grown := w ++ [t]
  if 100 < grown.length then grown.drop 1 else grown

/-- Folding `recordLatency` over a list of samples. -/
def recordAll (w : List ℚ) (l : List ℚ) : List ℚ :=
  l.foldl recordLatency w

/-- The dict returned by `get_performance_stats` (`app.py` lines 350-366). -/
structure PerfSnapshot where
  avg_processing_time_ms : ℚ
  fps : ℚ
  frames_processed : ℕ
deriving DecidableEq, Repr

/-- Model of `DetectionServer.get_performance_stats` (`app.py` lines 350-366):
all-zero snapshot when the window is empty, otherwise mean latency in
milliseconds, fps as the inverse of the mean when positive, and the frame
counter. -/
def get_performance_stats (s : ServerState) : PerfSnapshot :=
  if s.processing_times = [] then ⟨0, 0, 0⟩
  else
    let avg_time := s.processing_times.sum / (s.processing_times.length : ℚ)
    ⟨avg_time * 1000, if 0 < avg_time then 1 / avg_time else 0, s.frame_count⟩

/-- One entry of the `detections` list of a result message: either a decoded
detection (loaded-model path, `app.py` line 337) or the fixed mock entry
(`app.py` lines 378-383) with keys `bbox`, `confidence`, `label`,
`class_id`. -/
inductive ResultDet
  | real (d : Detection)
  | mock (bbox : List ℤ) (confidence : ℚ) (label : String) (class_id : ℕ)
deriving DecidableEq, Repr

/-- A result message sent over the data channel (`app.py` lines 332-338,
342-348 and 371-390).  `send_ts` and `performance` are present only in the
mock-mode message. -/
structure ResultMsg where
  frame_id : String
  capture_ts : ℤ
  recv_ts : ℤ
  inference_ts : ℤ
  send_ts : Option ℤ
  detections : List ResultDet
  performance : Option PerfSnapshot
deriving DecidableEq, Repr

/-- Model of `DetectionServer._create_mock_detection` (`app.py` lines 368-390):
the fixed mock result with one synthetic detection (label `person`,
confidence 0.95, bbox `[100, 100, 200, 200]`, class id 0), `send_ts` equal
to `inference_ts`, and a fixed performance snapshot. -/
def create_mock_detection (s : ServerState) (frame_id : String)
    (capture_ts recv_ts current_ts : ℤ) : ResultMsg :=
  { frame_id := frame_id
    capture_ts := capture_ts
    recv_ts := recv_ts
    inference_ts := current_ts
    send_ts := some current_ts
    detections := [ResultDet.mock [100, 100, 200, 200] (95 / 100) "person" 0]
    performance := some ⟨5, 20, s.frame_count + 1⟩ }

/-- Model of `DetectionServer.process_frame` (`app.py` lines 295-348): mock result
when the model is not loaded; otherwise preprocess (which stores the
transform attributes), run inference through the oracle, and on success
decode plus NMS and record the latency; any exception in the
inference/decode stage is caught and downgraded to an empty-detections
result.  `now_ts` stands for the clock values read for `inference_ts`. -/
def process_frame (s : ServerState) (frame_w frame_h : ℕ) (frame_id : String)
    (capture_ts recv_ts now_ts : ℤ) (infer : Except Unit (List (List ℚ)))
    (latency : ℚ) : ServerState × ResultMsg :=
  if s.model_loaded = false then
    (s, create_mock_detection s frame_id capture_ts recv_ts now_ts)
  else
    let s1 := preprocess_frame s frame_w frame_h
    match infer with
    | Except.error _ =>
        (s1, ⟨frame_id, capture_ts, recv_ts, now_ts, none, [], none⟩)
    | Except.ok rows =>
        let dets := postprocess_output s1 rows frame_w frame_h
        let s2 := { s1 with
                      processing_times := recordLatency s1.processing_times latency,
                      frame_count := s1.frame_count + 1 }
        (s2, ⟨frame_id, capture_ts, recv_ts, now_ts, none,
              dets.map ResultDet.real, none⟩)

/-- One iteration of the `while True` loop of
`WebRTCHandler._process_video_track` (`app.py` lines 440-459) after a frame
has been received: only when `detection_server.model_loaded` is true does
the loop call `process_frame`, and it sends the result only when a data
channel is registered for the connection and its `readyState` is
`"open"`.  Returns the server state after the iteration, plus the message
sent (if any). -/
def trackStep (registered : Bool) (readyState : String) (s : ServerState)
    (frame_w frame_h : ℕ) (frame_id : String) (capture_ts recv_ts now_ts : ℤ)
    (infer : Except Unit (List (List ℚ))) (latency : ℚ) :
    ServerState × Option ResultMsg :=
  if s.model_loaded then
    let r := process_frame s frame_w frame_h frame_id capture_ts recv_ts now_ts
        infer latency
    if registered then
      if readyState = "open" then (r.1, some r.2) else (r.1, none)
    else (r.1, none)
  else (s, none)

/-- Server states reachable through the public operations: the constructor,
`initialize`, and any number of `process_frame` calls. -/
inductive Reachable : ServerState → Prop
  | base : Reachable initServer
  | imodel {s : ServerState} (onnx_available load_ok : Bool)
      (meta : Option (List ℤ)) :
      Reachable s → Reachable (initModel s onnx_available load_ok meta)
  | frame {s : ServerState} (frame_w frame_h : ℕ) (frame_id : String)
      (capture_ts recv_ts now_ts : ℤ) (infer : Except Unit (List (List ℚ)))
      (latency : ℚ) :
      Reachable s →
      Reachable (process_frame s frame_w frame_h frame_id capture_ts recv_ts
        now_ts infer latency).1

/-! ## Helper lemmas about sorting and the NMS loop -/

theorem nmsLoop_nil (t : ℚ) : nmsLoop t [] = [] := by
  rw [nmsLoop]

theorem nmsLoop_cons (t : ℚ) (c : Detection) (rest : List Detection) :
    nmsLoop t (c :: rest) =
      c :: nmsLoop t (rest.filter fun det => calculate_iou c det < t) := by
  rw [nmsLoop]

theorem insertByScore_perm (d : Detection) (l : List Detection) :
    (insertByScore d l).Perm (d :: l) := by
  induction l with
  | nil => simp [insertByScore]
  | cons e rest ih =>
    rw [insertByScore]
    split
    · exact List.Perm.refl _
    · exact (ih.cons e).trans (List.Perm.swap d e rest)

theorem sortByScoreDesc_perm (l : List Detection) :
    (sortByScoreDesc l).Perm l := by
  induction l with
  | nil => simp [sortByScoreDesc]
  | cons d rest ih =>
    have : sortByScoreDesc (d :: rest) = insertByScore d (sortByScoreDesc rest) := rfl
    rw [this]
    exact (insertByScore_perm d _).trans (ih.cons d)

theorem mem_sortByScoreDesc {d : Detection} {l : List Detection} :
    d ∈ sortByScoreDesc l ↔ d ∈ l :=
  (sortByScoreDesc_perm l).mem_iff

theorem insertByScore_pairwise (d : Detection) (l : List Detection)
    (h : l.Pairwise fun a b => b.score ≤ a.score) :
    (insertByScore d l).Pairwise fun a b => b.score ≤ a.score := by
  induction l with
  | nil => simp [insertByScore]
  | cons e rest ih =>
    rw [insertByScore]
    rcases List.pairwise_cons.mp h with ⟨hhead, htail⟩
    split
    · refine List.pairwise_cons.mpr ⟨?_, h⟩
      intro x hx
      rcases List.mem_cons.mp hx with hx | hx
      · subst hx; assumption
      · exact le_trans (hhead x hx) (by assumption)
    · refine List.pairwise_cons.mpr ⟨?_, ih htail⟩
      intro x hx
      have hx2 : x ∈ d :: rest := (insertByScore_perm d rest).mem_iff.mp hx
      rcases List.mem_cons.mp hx2 with hx3 | hx3
      · subst hx3
        exact le_of_not_le (by assumption)
      · exact hhead x hx3

theorem sortByScoreDesc_pairwise (l : List Detection) :
    (sortByScoreDesc l).Pairwise fun a b => b.score ≤ a.score := by
  induction l with
  | nil => simp [sortByScoreDesc]
  | cons d rest ih => exact insertByScore_pairwise d _ ih

theorem calculate_iou_comm (b1 b2 : Detection) :
    calculate_iou b1 b2 = calculate_iou b2 b1 := by
  simp only [calculate_iou]
  rw [max_comm b2.xmin b1.xmin, min_comm b2.xmax b1.xmax,
      max_comm b2.ymin b1.ymin, min_comm b2.ymax b1.ymax,
      add_comm ((b2.xmax - b2.xmin) * (b2.ymax - b2.ymin))
               ((b1.xmax - b1.xmin) * (b1.ymax - b1.ymin))]

theorem nmsLoop_subset (t : ℚ) : ∀ (n : ℕ) (l : List Detection), l.length ≤ n →
    ∀ d ∈ nmsLoop t l, d ∈ l := by
  intro n
  induction n with
  | zero =>
    intro l hl d hd
    match l, hl with
    | [], _ => simp [nmsLoop_nil] at hd
  | succ n ih =>
    intro l hl d hd
    match l with
    | [] => simp [nmsLoop_nil] at hd
    | c :: rest =>
      rw [nmsLoop_cons] at hd
      rcases List.mem_cons.mp hd with h | h
      · exact h ▸ List.mem_cons_self c rest
      · have hlen : (rest.filter fun det => calculate_iou c det < t).length ≤ n := by
          have := List.length_filter_le
            (fun det => decide (calculate_iou c det < t)) rest
          simp only [List.length_cons] at hl
          omega
        have := ih _ hlen d h
        exact List.mem_cons_of_mem c (List.mem_filter.mp this).1

theorem nmsLoop_pairwise (t : ℚ) : ∀ (n : ℕ) (l : List Detection), l.length ≤ n →
    (nmsLoop t l).Pairwise fun a b => calculate_iou a b < t := by
  intro n
  induction n with
  | zero =>
    intro l hl
    match l, hl with
    | [], _ => simp [nmsLoop_nil]
  | succ n ih =>
    intro l hl
    match l with
    | [] => simp [nmsLoop_nil]
    | c :: rest =>
      rw [nmsLoop_cons]
      have hlen : (rest.filter fun det => calculate_iou c det < t).length ≤ n := by
        have := List.length_filter_le
          (fun det => decide (calculate_iou c det < t)) rest
        simp only [List.length_cons] at hl
        omega
      refine List.pairwise_cons.mpr ⟨?_, ih _ hlen⟩
      intro e he
      have hmem := nmsLoop_subset t n _ hlen e he
      have := (List.mem_filter.mp hmem).2
      exact of_decide_eq_true this

theorem apply_nms_subset (t : ℚ) (l : List Detection) :
    ∀ d ∈ apply_nms t l, d ∈ l := by
  intro d hd
  have := nmsLoop_subset t (sortByScoreDesc l).length (sortByScoreDesc l)
    le_rfl d hd
  exact mem_sortByScoreDesc.mp this

theorem argmaxIdx_lt_length : ∀ (l : List ℚ), l ≠ [] → argmaxIdx l < l.length
  | [], h => absurd rfl h
  | [_], _ => by simp [argmaxIdx]
  | a :: b :: rest, _ => by
      have ih := argmaxIdx_lt_length (b :: rest) (by simp)
      simp only [argmaxIdx]
      split
      · simp only [List.length_cons] at ih ⊢
        omega
      · simp

theorem argmaxIdx_is_max : ∀ (l : List ℚ), ∀ x ∈ l, x ≤ l.getD (argmaxIdx l) 0
  | [] => by simp
  | [a] => by
      intro x hx
      rcases List.mem_singleton.mp hx with rfl
      simp [argmaxIdx]
  | a :: b :: rest => by
      intro x hx
      have ih := argmaxIdx_is_max (b :: rest)
      simp only [argmaxIdx]
      split
      · rename_i hgt
        rw [List.getD_cons_succ]
        rcases List.mem_cons.mp hx with h | h
        · exact h ▸ le_of_lt hgt
        · exact ih x h
      · rename_i hle
        push_neg at hle
        rw [List.getD_cons_zero]
        rcases List.mem_cons.mp hx with h | h
        · exact h ▸ le_rfl
        · exact le_trans (ih x h) hle

theorem argmax_getD_mem (l : List ℚ) (h : l ≠ []) :
    l.getD (argmaxIdx l) 0 ∈ l := by
  have hlt := argmaxIdx_lt_length l h
  rw [List.getD_eq_getElem l 0 hlt]
  exact List.getElem_mem hlt

theorem transformMain_xmin (scale dw dh : ℚ) (W H : ℕ) (x1 y1 x2 y2 : ℚ) :
    (transformMain scale dw dh W H x1 y1 x2 y2).xmin =
      max 0 (min ((W : ℚ) - 1) ((x1 - dw) / scale)) / (W : ℚ) := rfl

theorem transformMain_ymin (scale dw dh : ℚ) (W H : ℕ) (x1 y1 x2 y2 : ℚ) :
    (transformMain scale dw dh W H x1 y1 x2 y2).ymin =
      max 0 (min ((H : ℚ) - 1) ((y1 - dh) / scale)) / (H : ℚ) := rfl

theorem transformMain_xmax (scale dw dh : ℚ) (W H : ℕ) (x1 y1 x2 y2 : ℚ) :
    (transformMain scale dw dh W H x1 y1 x2 y2).xmax =
      max 0 (min ((W : ℚ) - 1) ((x2 - dw) / scale)) / (W : ℚ) := rfl

theorem transformMain_ymax (scale dw dh : ℚ) (W H : ℕ) (x1 y1 x2 y2 : ℚ) :
    (transformMain scale dw dh W H x1 y1 x2 y2).ymax =
      max 0 (min ((H : ℚ) - 1) ((y2 - dh) / scale)) / (H : ℚ) := rfl

theorem clipDiv_bounds (D : ℕ) (hD : 1 ≤ D) (x : ℚ) :
    0 ≤ max 0 (min ((D : ℚ) - 1) x) / (D : ℚ) ∧
      max 0 (min ((D : ℚ) - 1) x) / (D : ℚ) ≤ 1 := by
  have hDq : (0 : ℚ) < (D : ℚ) := by
    exact_mod_cast Nat.lt_of_lt_of_le Nat.zero_lt_one hD
  have hD1 : (1 : ℚ) ≤ (D : ℚ) := by exact_mod_cast hD
  constructor
  · exact div_nonneg (le_max_left _ _) hDq.le
  · rw [div_le_one hDq]
    exact max_le (by linarith) (le_trans (min_le_left _ _) (by linarith))

theorem transformMain_mem_unit (scale dw dh : ℚ) (W H : ℕ) (hW : 1 ≤ W)
    (hH : 1 ≤ H) (x1 y1 x2 y2 : ℚ) :
    (0 ≤ (transformMain scale dw dh W H x1 y1 x2 y2).xmin ∧
      (transformMain scale dw dh W H x1 y1 x2 y2).xmin ≤ 1) ∧
    (0 ≤ (transformMain scale dw dh W H x1 y1 x2 y2).ymin ∧
      (transformMain scale dw dh W H x1 y1 x2 y2).ymin ≤ 1) ∧
    (0 ≤ (transformMain scale dw dh W H x1 y1 x2 y2).xmax ∧
      (transformMain scale dw dh W H x1 y1 x2 y2).xmax ≤ 1) ∧
    (0 ≤ (transformMain scale dw dh W H x1 y1 x2 y2).ymax ∧
      (transformMain scale dw dh W H x1 y1 x2 y2).ymax ≤ 1) := by
  rw [transformMain_xmin, transformMain_ymin, transformMain_xmax, transformMain_ymax]
  exact ⟨clipDiv_bounds W hW _, clipDiv_bounds H hH _,
         clipDiv_bounds W hW _, clipDiv_bounds H hH _⟩

theorem rowCoords_bounds (s : ServerState) (W H : ℕ) (hW : 1 ≤ W) (hH : 1 ≤ H)
    (row : List ℚ) :
    0 ≤ (rowCoords s W H row).xmin ∧ (rowCoords s W H row).xmax ≤ 1 ∧
      0 ≤ (rowCoords s W H row).ymin ∧ (rowCoords s W H row).ymax ≤ 1 := by
  have hfb : ∀ (mw mh : ℤ) (x1 y1 x2 y2 : ℚ),
      0 ≤ (transformFallback mw mh x1 y1 x2 y2).xmin ∧
        (transformFallback mw mh x1 y1 x2 y2).xmax ≤ 1 ∧
        0 ≤ (transformFallback mw mh x1 y1 x2 y2).ymin ∧
        (transformFallback mw mh x1 y1 x2 y2).ymax ≤ 1 := by
    intro mw mh x1 y1 x2 y2
    exact ⟨le_max_left _ _, min_le_left _ _, le_max_left _ _, min_le_left _ _⟩
  unfold rowCoords
  rcases s.last_scale with _ | scale
  · exact hfb _ _ _ _ _ _
  rcases s.last_dw with _ | dw
  · exact hfb _ _ _ _ _ _
  rcases s.last_dh with _ | dh
  · exact hfb _ _ _ _ _ _
  obtain ⟨⟨h1, _⟩, ⟨h2, _⟩, ⟨_, h3⟩, ⟨_, h4⟩⟩ :=
    transformMain_mem_unit scale dw dh W H hW hH
      (row.getD 0 0 - row.getD 2 0 / 2) (row.getD 1 0 - row.getD 3 0 / 2)
      (row.getD 0 0 + row.getD 2 0 / 2) (row.getD 1 0 + row.getD 3 0 / 2)
  exact ⟨h1, h3, h2, h4⟩

theorem decodeRow_some_bounds (s : ServerState) (W H : ℕ) (hW : 1 ≤ W)
    (hH : 1 ≤ H) (row : List ℚ) (d : Detection)
    (h : decodeRow s W H row = some d) :
    0 ≤ d.xmin ∧ d.xmin < d.xmax ∧ d.xmax ≤ 1 ∧
      0 ≤ d.ymin ∧ d.ymin < d.ymax ∧ d.ymax ≤ 1 := by
  simp only [decodeRow] at h
  split at h
  · exact Option.noConfusion h
  · split at h
    · exact Option.noConfusion h
    · rename_i hdeg
      push_neg at hdeg
      obtain ⟨hx, hy⟩ := hdeg
      obtain ⟨b1, b2, b3, b4⟩ := rowCoords_bounds s W H hW hH row
      have hd := Option.some.inj h
      subst hd
      exact ⟨b1, hx, b2, b3, hy, b4⟩

/-! ## Claim theorems -/

/-- C2: for every input list of detection candidates and every IoU
threshold, `_apply_nms` returns a subset of its input, every pair of
surviving boxes has IoU strictly below the threshold (in both orders, IoU
being symmetric), the globally highest-scoring input box is among the
survivors, and the IoU comparison is label-blind (relabelling either box
does not change it). -/
theorem C2_nms_properties (t : ℚ) (l : List Detection) :
    (∀ d ∈ apply_nms t l, d ∈ l) ∧
    ((apply_nms t l).Pairwise fun a b =>
      calculate_iou a b < t ∧ calculate_iou b a < t) ∧
    (l ≠ [] → ∃ d ∈ apply_nms t l, ∀ a ∈ l, a.score ≤ d.score) ∧
    (∀ b1 b2 : Detection, ∀ s1 s2 : String,
      calculate_iou { b1 with label := s1 } { b2 with label := s2 } =
        calculate_iou b1 b2) := by
  refine ⟨apply_nms_subset t l, ?_, ?_, ?_⟩
  · have := nmsLoop_pairwise t (sortByScoreDesc l).length (sortByScoreDesc l) le_rfl
    exact this.imp fun h => ⟨h, (calculate_iou_comm _ _) ▸ h⟩
  · intro hne
    have hsne : sortByScoreDesc l ≠ [] := by
      intro h
      have := (sortByScoreDesc_perm l).length_eq
      rw [h] at this
      exact hne (List.eq_nil_of_length_eq_zero this.symm)
    obtain ⟨c, rest, hc⟩ := List.exists_cons_of_ne_nil hsne
    refine ⟨c, ?_, ?_⟩
    · show c ∈ apply_nms t l
      unfold apply_nms
      rw [hc, nmsLoop_cons]
      exact List.mem_cons_self _ _
    · intro a ha
      have hmem : a ∈ c :: rest := hc ▸ mem_sortByScoreDesc.mpr ha
      have hpw := hc ▸ sortByScoreDesc_pairwise l
      rcases List.mem_cons.mp hmem with h | h
      · exact h ▸ le_rfl
      · exact (List.pairwise_cons.mp hpw).1 a h
  · intro b1 b2 s1 s2
    rfl

/-- C8: the IoU of a box of positive area with itself is 1; the IoU of two
disjoint boxes (separated along some axis) is 0; and `_calculate_iou`
returns 0 when the boxes do not overlap or the union area is not positive,
and intersection area divided by union area otherwise. -/
theorem C8_iou_properties :
    (∀ b : Detection, b.xmin < b.xmax → b.ymin < b.ymax →
      calculate_iou b b = 1) ∧
    (∀ b1 b2 : Detection,
      b1.xmax ≤ b2.xmin ∨ b2.xmax ≤ b1.xmin ∨ b1.ymax ≤ b2.ymin ∨
        b2.ymax ≤ b1.ymin →
      calculate_iou b1 b2 = 0) ∧
    (∀ b1 b2 : Detection,
      min b1.xmax b2.xmax < max b1.xmin b2.xmin ∨
        min b1.ymax b2.ymax < max b1.ymin b2.ymin →
      calculate_iou b1 b2 = 0) ∧
    (∀ b1 b2 : Detection,
      (b1.xmax - b1.xmin) * (b1.ymax - b1.ymin) +
          (b2.xmax - b2.xmin) * (b2.ymax - b2.ymin) -
          (min b1.xmax b2.xmax - max b1.xmin b2.xmin) *
            (min b1.ymax b2.ymax - max b1.ymin b2.ymin) ≤ 0 →
      calculate_iou b1 b2 = 0) ∧
    (∀ b1 b2 : Detection,
      max b1.xmin b2.xmin ≤ min b1.xmax b2.xmax →
      max b1.ymin b2.ymin ≤ min b1.ymax b2.ymax →
      0 < (b1.xmax - b1.xmin) * (b1.ymax - b1.ymin) +
          (b2.xmax - b2.xmin) * (b2.ymax - b2.ymin) -
          (min b1.xmax b2.xmax - max b1.xmin b2.xmin) *
            (min b1.ymax b2.ymax - max b1.ymin b2.ymin) →
      calculate_iou b1 b2 =
        ((min b1.xmax b2.xmax - max b1.xmin b2.xmin) *
          (min b1.ymax b2.ymax - max b1.ymin b2.ymin)) /
        ((b1.xmax - b1.xmin) * (b1.ymax - b1.ymin) +
          (b2.xmax - b2.xmin) * (b2.ymax - b2.ymin) -
          (min b1.xmax b2.xmax - max b1.xmin b2.xmin) *
            (min b1.ymax b2.ymax - max b1.ymin b2.ymin))) := by
  have key : ∀ b1 b2 : Detection,
      (min b1.xmax b2.xmax ≤ max b1.xmin b2.xmin ∨
        min b1.ymax b2.ymax ≤ max b1.ymin b2.ymin) →
      calculate_iou b1 b2 = 0 := by
    intro b1 b2 h
    simp only [calculate_iou]
    split_ifs with h1 h2
    · rfl
    · push_neg at h1
      rcases h with h | h
      · have hx : min b1.xmax b2.xmax = max b1.xmin b2.xmin :=
          le_antisymm h h1.1
        rw [hx, sub_self, zero_mul, zero_div]
      · have hy : min b1.ymax b2.ymax = max b1.ymin b2.ymin :=
          le_antisymm h h1.2
        rw [hy, sub_self, mul_zero, zero_div]
    · rfl
  refine ⟨?_, ?_, ?_, ?_, ?_⟩
  · intro b hx hy
    simp only [calculate_iou, max_self, min_self]
    rw [if_neg (by push_neg; constructor <;> linarith), if_pos (by nlinarith)]
    have harea : (b.xmax - b.xmin) * (b.ymax - b.ymin) ≠ 0 :=
      ne_of_gt (mul_pos (by linarith) (by linarith))
    field_simp
  · intro b1 b2 h
    refine key b1 b2 ?_
    rcases h with h | h | h | h
    · exact Or.inl (le_trans (min_le_left _ _) (le_trans h (le_max_right _ _)))
    · exact Or.inl (le_trans (min_le_right _ _) (le_trans h (le_max_left _ _)))
    · exact Or.inr (le_trans (min_le_left _ _) (le_trans h (le_max_right _ _)))
    · exact Or.inr (le_trans (min_le_right _ _) (le_trans h (le_max_left _ _)))
  · intro b1 b2 h
    exact key b1 b2 (h.imp le_of_lt le_of_lt)
  · intro b1 b2 h
    simp only [calculate_iou]
    split_ifs with h1 h2
    · rfl
    · linarith
    · rfl
  · intro b1 b2 hx hy hu
    simp only [calculate_iou]
    rw [if_neg (by push_neg; exact ⟨hx, hy⟩), if_pos hu]

/-- C3: every candidate surviving decode-plus-NMS satisfies
`0 ≤ xmin < xmax ≤ 1` and `0 ≤ ymin < ymax ≤ 1`; any row whose converted,
clipped, normalized box is degenerate (`xmax ≤ xmin` or `ymax ≤ ymin`) is
discarded by the decoder; and the main inverse-transform conversion keeps
all four coordinates in `[0, 1]`. -/
theorem C3_candidate_bounds (s : ServerState) (rows : List (List ℚ))
    (orig_width orig_height : ℕ) (hW : 1 ≤ orig_width) (hH : 1 ≤ orig_height) :
    (∀ d ∈ postprocess_output s rows orig_width orig_height,
      0 ≤ d.xmin ∧ d.xmin < d.xmax ∧ d.xmax ≤ 1 ∧
        0 ≤ d.ymin ∧ d.ymin < d.ymax ∧ d.ymax ≤ 1) ∧
    (∀ row : List ℚ,
      (rowCoords s orig_width orig_height row).xmax ≤
          (rowCoords s orig_width orig_height row).xmin ∨
        (rowCoords s orig_width orig_height row).ymax ≤
          (rowCoords s orig_width orig_height row).ymin →
      decodeRow s orig_width orig_height row = none) ∧
    (∀ scale dw dh x1 y1 x2 y2 : ℚ,
      (0 ≤ (transformMain scale dw dh orig_width orig_height x1 y1 x2 y2).xmin ∧
        (transformMain scale dw dh orig_width orig_height x1 y1 x2 y2).xmin ≤ 1) ∧
      (0 ≤ (transformMain scale dw dh orig_width orig_height x1 y1 x2 y2).ymin ∧
        (transformMain scale dw dh orig_width orig_height x1 y1 x2 y2).ymin ≤ 1) ∧
      (0 ≤ (transformMain scale dw dh orig_width orig_height x1 y1 x2 y2).xmax ∧
        (transformMain scale dw dh orig_width orig_height x1 y1 x2 y2).xmax ≤ 1) ∧
      (0 ≤ (transformMain scale dw dh orig_width orig_height x1 y1 x2 y2).ymax ∧
        (transformMain scale dw dh orig_width orig_height x1 y1 x2 y2).ymax ≤ 1)) := by
  refine ⟨?_, ?_, ?_⟩
  · intro d hd
    have hmem : d ∈ rows.filterMap (decodeRow s orig_width orig_height) :=
      apply_nms_subset s.nms_threshold _ d hd
    obtain ⟨row, _, hrow⟩ := List.mem_filterMap.mp hmem
    exact decodeRow_some_bounds s orig_width orig_height hW hH row d hrow
  · intro row hdeg
    simp only [decodeRow]
    by_cases h1 : row.getD 4 0 * (row.drop 5).getD (argmaxIdx (row.drop 5)) 0 <
        s.confidence_threshold
    · rw [if_pos h1]
    · rw [if_neg h1, if_pos hdeg]
  · intro scale dw dh x1 y1 x2 y2
    exact transformMain_mem_unit scale dw dh orig_width orig_height hW hH x1 y1 x2 y2

/-- C9 helper: `initialize` does not touch the transform attributes. -/
theorem initModel_preserves_attrs (s : ServerState) (a b : Bool)
    (meta : Option (List ℤ)) :
    (initModel s a b meta).last_scale = s.last_scale ∧
    (initModel s a b meta).last_dw = s.last_dw ∧
    (initModel s a b meta).last_dh = s.last_dh := by
  simp only [initModel]
  split_ifs <;> exact ⟨rfl, rfl, rfl⟩

/-- C9 helper: both branches of `preprocess_frame` store all three transform
attributes. -/
theorem preprocess_frame_sets_attrs (s : ServerState) (fw fh : ℕ) :
    ∃ sc pw ph : ℚ, (preprocess_frame s fw fh).last_scale = some sc ∧
      (preprocess_frame s fw fh).last_dw = some pw ∧
      (preprocess_frame s fw fh).last_dh = some ph := by
  simp only [preprocess_frame]
  split_ifs <;> exact ⟨_, _, _, rfl, rfl, rfl⟩

/-- C9 helper: `process_frame` keeps the transform attributes present. -/
theorem process_frame_preserves_attrs (s : ServerState) (fw fh : ℕ)
    (fid : String) (cts rts now : ℤ) (infer : Except Unit (List (List ℚ)))
    (lat : ℚ)
    (h : ∃ sc pw ph : ℚ, s.last_scale = some sc ∧ s.last_dw = some pw ∧
      s.last_dh = some ph) :
    ∃ sc pw ph : ℚ,
      (process_frame s fw fh fid cts rts now infer lat).1.last_scale = some sc ∧
      (process_frame s fw fh fid cts rts now infer lat).1.last_dw = some pw ∧
      (process_frame s fw fh fid cts rts now infer lat).1.last_dh = some ph := by
  simp only [process_frame]
  split_ifs with hml
  · simpa using h
  · cases infer with
    | error e =>
      simpa using preprocess_frame_sets_attrs s fw fh
    | ok rows =>
      obtain ⟨sc, pw, ph, h1, h2, h3⟩ := preprocess_frame_sets_attrs s fw fh
      exact ⟨sc, pw, ph, h1, h2, h3⟩

/-- C9 helper: every reachable state has all three transform attributes. -/
theorem reachable_attrs (s : ServerState) (h : Reachable s) :
    ∃ sc pw ph : ℚ, s.last_scale = some sc ∧ s.last_dw = some pw ∧
      s.last_dh = some ph := by
  induction h with
  | base => exact ⟨1, 0, 0, rfl, rfl, rfl⟩
  | imodel a b meta hr ih =>
    obtain ⟨sc, pw, ph, h1, h2, h3⟩ := ih
    obtain ⟨e1, e2, e3⟩ := initModel_preserves_attrs _ a b meta
    exact ⟨sc, pw, ph, e1.trans h1, e2.trans h2, e3.trans h3⟩
  | frame fw fh fid cts rts now infer lat hr ih =>
    exact process_frame_preserves_attrs _ fw fh fid cts rts now infer lat ih

/-- C9 helper: with all three attributes present, the decoder takes the
main subtract-pad path. -/
theorem decodeRow_eq_noFallback (s : ServerState) (scale dw dh : ℚ)
    (h1 : s.last_scale = some scale) (h2 : s.last_dw = some dw)
    (h3 : s.last_dh = some dh) (W H : ℕ) (row : List ℚ) :
    decodeRow s W H row =
      decodeRowNoFallback scale dw dh s.confidence_threshold s.classes W H row := by
  unfold decodeRow decodeRowNoFallback rowCoords
  rw [h1, h2, h3]

/-- C9: on every state reachable through the constructor, `initialize` and
`process_frame`, the three transform attributes `last_scale`, `last_dw`,
`last_dh` are present (the `hasattr` guard of `postprocess_output` is
always true), so the decoder always takes the subtract-pad,
divide-by-scale, clip path and its direct-normalization fallback branch is
unreachable. -/
theorem C9_fallback_unreachable (s : ServerState) (h : Reachable s) :
    ∃ scale dw dh : ℚ, s.last_scale = some scale ∧ s.last_dw = some dw ∧
      s.last_dh = some dh ∧
      ∀ (W H : ℕ) (row : List ℚ),
        decodeRow s W H row =
          decodeRowNoFallback scale dw dh s.confidence_threshold s.classes
            W H row := by
  obtain ⟨sc, pw, ph, h1, h2, h3⟩ := reachable_attrs s h
  exact ⟨sc, pw, ph, h1, h2, h3, fun W H row =>
    decodeRow_eq_noFallback s sc pw ph h1 h2 h3 W H row⟩

/-- C4: the decoder computes the confidence of a row as objectness times the
maximal class score (the score at the argmax index), rejects the row at the
confidence gate exactly when that confidence is below the configured
threshold, labels a retained row with the class name at the argmax index
and carries the confidence as its score; concretely with threshold 0.5, a
row with objectness 0.9 and top class score 0.9 at index 0 is retained as
`person` with confidence 0.81, and a row with confidence 0.1 is dropped. -/
theorem C4_decoder_confidence (s : ServerState) (W H : ℕ) (row : List ℚ) :
    (row.drop 5 ≠ [] →
      (∀ x ∈ row.drop 5, x ≤ (row.drop 5).getD (argmaxIdx (row.drop 5)) 0) ∧
      (row.drop 5).getD (argmaxIdx (row.drop 5)) 0 ∈ row.drop 5) ∧
    (row.getD 4 0 * (row.drop 5).getD (argmaxIdx (row.drop 5)) 0 <
        s.confidence_threshold →
      decodeRow s W H row = none) ∧
    (∀ d : Detection, decodeRow s W H row = some d →
      s.confidence_threshold ≤
          row.getD 4 0 * (row.drop 5).getD (argmaxIdx (row.drop 5)) 0 ∧
      d.score = row.getD 4 0 * (row.drop 5).getD (argmaxIdx (row.drop 5)) 0 ∧
      d.label = s.classes.getD (argmaxIdx (row.drop 5)) "") ∧
    decodeRow initServer 640 640 [320, 320, 100, 100, 9 / 10, 9 / 10, 1 / 10] =
      some ⟨"person", 81 / 100, 27 / 64, 27 / 64, 37 / 64, 37 / 64⟩ ∧
    decodeRow initServer 640 640 [320, 320, 100, 100, 1 / 5, 1 / 2] = none := by
  refine ⟨?_, ?_, ?_, ?_, ?_⟩
  · intro hne
    exact ⟨argmaxIdx_is_max (row.drop 5), argmax_getD_mem (row.drop 5) hne⟩
  · intro hlt
    simp only [decodeRow]
    rw [if_pos hlt]
  · intro d hd
    simp only [decodeRow] at hd
    split at hd
    · exact Option.noConfusion hd
    · rename_i hge
      split at hd
      · exact Option.noConfusion hd
      · have hinj := Option.some.inj hd
        subst hinj
        exact ⟨le_of_not_lt hge, rfl, rfl⟩
  · norm_num [decodeRow, rowCoords, transformMain, argmaxIdx, initServer,
      coco_classes, min_def, max_def]
  · norm_num [decodeRow, rowCoords, argmaxIdx, initServer]

/-- Witness for C2 at a concrete two-element input. -/
theorem C2_witness :
    ∃ d ∈ apply_nms (2 / 5)
        [⟨"a", 9 / 10, 0, 0, 1 / 2, 1 / 2⟩, ⟨"b", 1 / 2, 0, 0, 1 / 2, 1 / 2⟩],
      ∀ a ∈ [(⟨"a", 9 / 10, 0, 0, 1 / 2, 1 / 2⟩ : Detection),
             ⟨"b", 1 / 2, 0, 0, 1 / 2, 1 / 2⟩], a.score ≤ d.score :=
  (C2_nms_properties (2 / 5)
    [⟨"a", 9 / 10, 0, 0, 1 / 2, 1 / 2⟩,
     ⟨"b", 1 / 2, 0, 0, 1 / 2, 1 / 2⟩]).2.2.1 (by simp)

/-- Witness for C8 at concrete boxes: the unit box against itself, and the
unit box against a separated box. -/
theorem C8_witness :
    calculate_iou ⟨"w", 1, 0, 0, 1, 1⟩ ⟨"w", 1, 0, 0, 1, 1⟩ = 1 ∧
    calculate_iou ⟨"w", 1, 0, 0, 1, 1⟩ ⟨"w", 1, 2, 2, 3, 3⟩ = 0 :=
  ⟨C8_iou_properties.1 ⟨"w", 1, 0, 0, 1, 1⟩ zero_lt_one zero_lt_one,
   C8_iou_properties.2.1 ⟨"w", 1, 0, 0, 1, 1⟩ ⟨"w", 1, 2, 2, 3, 3⟩
     (Or.inl one_le_two)⟩

/-- Witness for C3: the main conversion at a concrete scale, pad, frame size
and box keeps all four coordinates in the unit interval. -/
theorem C3_witness :
    (0 ≤ (transformMain 1 0 0 640 480 270 270 370 370).xmin ∧
      (transformMain 1 0 0 640 480 270 270 370 370).xmin ≤ 1) ∧
    (0 ≤ (transformMain 1 0 0 640 480 270 270 370 370).ymin ∧
      (transformMain 1 0 0 640 480 270 270 370 370).ymin ≤ 1) ∧
    (0 ≤ (transformMain 1 0 0 640 480 270 270 370 370).xmax ∧
      (transformMain 1 0 0 640 480 270 270 370 370).xmax ≤ 1) ∧
    (0 ≤ (transformMain 1 0 0 640 480 270 270 370 370).ymax ∧
      (transformMain 1 0 0 640 480 270 270 370 370).ymax ≤ 1) :=
  (C3_candidate_bounds initServer [[320, 320, 100, 100, 9 / 10, 9 / 10, 1 / 10]]
    640 480 (by decide) (by decide)).2.2 1 0 0 270 270 370 370

/-- Witness for C4: the argmax entry of the scores slice of the retained
scenario row is a member of the slice. -/
theorem C4_witness :
    (([320, 320, 100, 100, 9 / 10, 9 / 10, 1 / 10] : List ℚ).drop 5).getD
        (argmaxIdx (([320, 320, 100, 100, 9 / 10, 9 / 10, 1 / 10] : List ℚ).drop 5))
        0 ∈
      ([320, 320, 100, 100, 9 / 10, 9 / 10, 1 / 10] : List ℚ).drop 5 :=
  ((C4_decoder_confidence initServer 640 640
    [320, 320, 100, 100, 9 / 10, 9 / 10, 1 / 10]).1 (by decide)).2

/-- Witness for C9 at the freshly constructed server state. -/
theorem C9_witness :
    ∃ scale dw dh : ℚ, initServer.last_scale = some scale ∧
      initServer.last_dw = some dw ∧ initServer.last_dh = some dh ∧
      ∀ (W H : ℕ) (row : List ℚ),
        decodeRow initServer W H row =
          decodeRowNoFallback scale dw dh initServer.confidence_threshold
            initServer.classes W H row :=
  C9_fallback_unreachable initServer Reachable.base

/-- C5: whenever the model is not loaded, `process_frame` leaves the state
untouched and returns the fixed mock DetectionResult — carrying `send_ts`,
the fixed performance snapshot and one synthetic detection with label
`person` and confidence 0.95 — for every inference-oracle outcome, so no
exception of the inference path can surface. -/
theorem C5_mock_on_unloaded (s : ServerState) (fw fh : ℕ) (fid : String)
    (cts rts now : ℤ) (infer : Except Unit (List (List ℚ))) (lat : ℚ)
    (h : s.model_loaded = false) :
    process_frame s fw fh fid cts rts now infer lat =
      (s, create_mock_detection s fid cts rts now) ∧
    create_mock_detection s fid cts rts now =
      { frame_id := fid, capture_ts := cts, recv_ts := rts, inference_ts := now,
        send_ts := some now,
        detections := [ResultDet.mock [100, 100, 200, 200] (95 / 100) "person" 0],
        performance := some ⟨5, 20, s.frame_count + 1⟩ } := by
  constructor
  · simp [process_frame, h]
  · rfl

/-- Witness for C5 at the freshly constructed server state. -/
theorem C5_witness :
    process_frame initServer 640 480 "f" 1 2 3 (Except.error ()) 1 =
      (initServer, create_mock_detection initServer ("f") 1 2 3) :=
  (C5_mock_on_unloaded initServer 640 480 "f" 1 2 3 (Except.error ()) 1 rfl).1

/-- C10 helper: `preprocess_frame` does not touch the performance window or
the frame counter. -/
theorem preprocess_frame_perf (s : ServerState) (fw fh : ℕ) :
    (preprocess_frame s fw fh).processing_times = s.processing_times ∧
    (preprocess_frame s fw fh).frame_count = s.frame_count := by
  simp only [preprocess_frame]
  split_ifs <;> exact ⟨rfl, rfl⟩

/-- C10: `process_frame` leaves the latency window and the frame counter
unchanged on the mock path (whole state unchanged) and on the failed
inference/decode path (which returns the empty-detections result), and
updates both — append-and-trim plus increment — only on the successful
path. -/
theorem C10_perf_updated_only_on_success (s : ServerState) (fw fh : ℕ)
    (fid : String) (cts rts now : ℤ) (lat : ℚ) :
    (s.model_loaded = false →
      ∀ infer, (process_frame s fw fh fid cts rts now infer lat).1 = s) ∧
    (s.model_loaded = true →
      (process_frame s fw fh fid cts rts now (Except.error ()) lat).1.processing_times
          = s.processing_times ∧
      (process_frame s fw fh fid cts rts now (Except.error ()) lat).1.frame_count
          = s.frame_count ∧
      (process_frame s fw fh fid cts rts now (Except.error ()) lat).2.detections
          = []) ∧
    (s.model_loaded = true → ∀ rows : List (List ℚ),
      (process_frame s fw fh fid cts rts now (Except.ok rows) lat).1.processing_times
          = recordLatency s.processing_times lat ∧
      (process_frame s fw fh fid cts rts now (Except.ok rows) lat).1.frame_count
          = s.frame_count + 1) := by
  obtain ⟨hpt, hfc⟩ := preprocess_frame_perf s fw fh
  refine ⟨?_, ?_, ?_⟩
  · intro h infer
    simp [process_frame, h]
  · intro h
    simp [process_frame, h, hpt, hfc]
  · intro h rows
    simp [process_frame, h, hpt, hfc]

/-- Witness for C10 at the freshly constructed server state (model not
loaded). -/
theorem C10_witness :
    (process_frame initServer 2 2 ("f") 0 0 0 (Except.error ()) 1).1 =
      initServer :=
  (C10_perf_updated_only_on_success initServer 2 2 ("f") 0 0 0 1).1 rfl
    (Except.error ())

theorem recordLatency_length_le (w : List ℚ) (t : ℚ) (h : w.length ≤ 100) :
    (recordLatency w t).length ≤ 100 := by
  simp only [recordLatency]
  split_ifs with h1
  · simp only [List.length_drop, List.length_append, List.length_singleton]
    omega
  · simp only [List.length_append, List.length_singleton] at h1 ⊢
    omega

theorem recordLatency_ne_nil (w : List ℚ) (t : ℚ) : recordLatency w t ≠ [] := by
  simp only [recordLatency]
  split_ifs with h1
  · intro hc
    have hlen := congrArg List.length hc
    simp only [List.length_drop, List.length_append, List.length_singleton,
      List.length_nil] at hlen
    simp only [List.length_append, List.length_singleton] at h1
    omega
  · simp

theorem recordLatency_full (w : List ℚ) (t : ℚ) (h : w.length = 100) :
    recordLatency w t = w.drop 1 ++ [t] := by
  simp only [recordLatency]
  rw [if_pos (by simp [h])]
  rw [List.drop_append_eq_append_drop]
  simp [h]

theorem recordAll_nil (w : List ℚ) : recordAll w [] = w := rfl

theorem recordAll_cons (w : List ℚ) (a : ℚ) (l : List ℚ) :
    recordAll w (a :: l) = recordAll (recordLatency w a) l := rfl

theorem recordAll_window : ∀ (l w : List ℚ), w.length ≤ 100 →
    recordAll w l = (w ++ l).drop (w.length + l.length - 100) := by
  intro l
  induction l with
  | nil =>
    intro w h
    rw [recordAll_nil]
    have hidx : w.length + List.length ([] : List ℚ) - 100 = 0 := by
      simp only [List.length_nil]
      omega
    rw [hidx]
    simp
  | cons a l ih =>
    intro w hw
    rw [recordAll_cons, ih _ (recordLatency_length_le w a hw)]
    by_cases hc : w.length ≤ 99
    · have heq : recordLatency w a = w ++ [a] := by
        simp only [recordLatency]
        rw [if_neg]
        simp only [List.length_append, List.length_singleton]
        omega
      rw [heq, List.append_assoc, List.singleton_append]
      congr 1
      simp only [List.length_append, List.length_singleton, List.length_cons,
        List.length_nil]
      omega
    · have hw100 : w.length = 100 := by omega
      rw [recordLatency_full w a hw100]
      have hlen : (w.drop 1 ++ [a]).length = 100 := by
        simp [List.length_drop, hw100]
      rw [hlen, List.append_assoc, List.singleton_append]
      have hidx1 : 100 + l.length - 100 = l.length := by omega
      have hidx2 : w.length + (a :: l).length - 100 = 1 + l.length := by
        simp only [List.length_cons, hw100]
        omega
      have key : (w ++ (a :: l)).drop (1 + l.length) =
          (w.drop 1 ++ (a :: l)).drop l.length := by
        rw [← List.drop_drop]
        congr 1
        rw [List.drop_append_eq_append_drop]
        simp [hw100]
      rw [hidx1, hidx2]
      exact key.symm

theorem initModel_preserves_perf (s : ServerState) (a b : Bool)
    (meta : Option (List ℤ)) :
    (initModel s a b meta).processing_times = s.processing_times ∧
    (initModel s a b meta).frame_count = s.frame_count := by
  simp only [initModel]
  split_ifs <;> exact ⟨rfl, rfl⟩

theorem process_frame_window_count (s : ServerState) (fw fh : ℕ) (fid : String)
    (cts rts now : ℤ) (infer : Except Unit (List (List ℚ))) (lat : ℚ)
    (ih : s.processing_times = [] → s.frame_count = 0) :
    (process_frame s fw fh fid cts rts now infer lat).1.processing_times = [] →
    (process_frame s fw fh fid cts rts now infer lat).1.frame_count = 0 := by
  obtain ⟨hpt, hfc⟩ := preprocess_frame_perf s fw fh
  simp only [process_frame]
  split_ifs with hml
  · exact ih
  · cases infer with
    | error e =>
      intro he
      rw [hfc]
      rw [hpt] at he
      exact ih he
    | ok rows =>
      intro he
      exact absurd he (recordLatency_ne_nil _ _)

/-- C6 helper: on every reachable state, an empty performance window forces
a zero frame counter (the two are only ever updated together). -/
theorem reachable_window_count (s : ServerState) (h : Reachable s) :
    s.processing_times = [] → s.frame_count = 0 := by
  induction h with
  | base => intro _; rfl
  | imodel a b meta hr ih =>
    obtain ⟨e1, e2⟩ := initModel_preserves_perf _ a b meta
    intro he
    rw [e2]
    rw [e1] at he
    exact ih he
  | frame fw fh fid cts rts now infer lat hr ih =>
    exact process_frame_window_count _ fw fh fid cts rts now infer lat ih

/-- C6: the performance window never exceeds 100 samples after a record
(the oldest sample is evicted first on overflow); after 101 records from an
empty window the window is exactly the last 100 samples, so the first
sample no longer contributes to the reported mean; the frame counter is
updated only by successful (non-mock, non-failed) inferences; and
`get_performance_stats` returns the window mean (in milliseconds, 0 when
the window is empty), fps equal to the inverse of the mean when the mean is
positive and 0 otherwise, and the frame counter (also when the window is
empty, on reachable states, where the counter is necessarily 0). -/
theorem C6_performance_window (s : ServerState) :
    (∀ (w : List ℚ) (t : ℚ), w.length ≤ 100 → (recordLatency w t).length ≤ 100) ∧
    (∀ (w : List ℚ) (t : ℚ), w.length = 100 →
      recordLatency w t = w.drop 1 ++ [t]) ∧
    (∀ l : List ℚ, l.length = 101 → recordAll [] l = l.drop 1) ∧
    (∀ (fw fh : ℕ) (fid : String) (cts rts now : ℤ) (lat : ℚ),
      (s.model_loaded = false →
        ∀ infer, (process_frame s fw fh fid cts rts now infer lat).1.frame_count
          = s.frame_count) ∧
      (s.model_loaded = true →
        (process_frame s fw fh fid cts rts now
          (Except.error ()) lat).1.frame_count = s.frame_count) ∧
      (s.model_loaded = true → ∀ rows : List (List ℚ),
        (process_frame s fw fh fid cts rts now
          (Except.ok rows) lat).1.frame_count = s.frame_count + 1)) ∧
    (s.processing_times = [] → get_performance_stats s = ⟨0, 0, 0⟩) ∧
    (s.processing_times ≠ [] →
      get_performance_stats s =
        ⟨s.processing_times.sum / (s.processing_times.length : ℚ) * 1000,
         if 0 < s.processing_times.sum / (s.processing_times.length : ℚ) then
           1 / (s.processing_times.sum / (s.processing_times.length : ℚ))
         else 0,
         s.frame_count⟩) ∧
    (Reachable s → (get_performance_stats s).frames_processed = s.frame_count) := by
  refine ⟨recordLatency_length_le, recordLatency_full, ?_, ?_, ?_, ?_, ?_⟩
  · intro l hl
    rw [recordAll_window l [] (by simp)]
    have hidx : List.length ([] : List ℚ) + l.length - 100 = 1 := by
      simp only [List.length_nil, hl]
    rw [hidx]
    simp
  · intro fw fh fid cts rts now lat
    obtain ⟨hpt, hfc⟩ := preprocess_frame_perf s fw fh
    refine ⟨?_, ?_, ?_⟩
    · intro h infer
      simp [process_frame, h]
    · intro h
      simp [process_frame, h, hfc]
    · intro h rows
      simp [process_frame, h, hfc]
  · intro he
    simp only [get_performance_stats]
    rw [if_pos he]
  · intro hne
    simp only [get_performance_stats]
    rw [if_neg hne]
  · intro hr
    by_cases he : s.processing_times = []
    · have h0 := reachable_window_count s hr he
      simp only [get_performance_stats]
      rw [if_pos he, h0]
    · simp only [get_performance_stats]
      rw [if_neg he]

/-- Witness for C6 at concrete inputs: 101 records of the constant sample 1
from the empty window, and the stats of the freshly constructed state. -/
theorem C6_witness :
    recordAll [] (List.replicate 101 1) = (List.replicate 101 1).drop 1 ∧
    get_performance_stats initServer = ⟨0, 0, 0⟩ ∧
    (get_performance_stats initServer).frames_processed =
      initServer.frame_count :=
  ⟨(C6_performance_window initServer).2.2.1 (List.replicate 101 1) (by simp),
   (C6_performance_window initServer).2.2.2.2.1 rfl,
   (C6_performance_window initServer).2.2.2.2.2.2 Reachable.base⟩

/-- C1 counterexample: with the model not loaded, a frame arriving, and a
data channel registered with `readyState = "open"`, the track-loop step
sends nothing at all — it does not synthesize (let alone deliver) the mock
DetectionResult the claim predicts, because the loop only processes frames
when `detection_server.model_loaded` is true. -/
theorem C1_counterexample :
    (trackStep true ("open") initServer 640 480 "f" 1 2 3 (Except.error ()) 1).2
        = none ∧
    ¬ (∀ (registered : Bool) (readyState : String) (s : ServerState)
        (fw fh : ℕ) (fid : String) (cts rts now : ℤ)
        (infer : Except Unit (List (List ℚ))) (lat : ℚ),
        s.model_loaded = false → registered = true → readyState = "open" →
        (trackStep registered readyState s fw fh fid cts rts now infer lat).2 =
          some (create_mock_detection s fid cts rts now)) := by
  constructor
  · rfl
  · intro hclaim
    have hc := hclaim true ("open") initServer 640 480 "f" 1 2 3
      (Except.error ()) 1 rfl rfl rfl
    have hn : (trackStep true ("open") initServer 640 480 "f" 1 2 3
        (Except.error ()) 1).2 = none := rfl
    rw [hn] at hc
    exact Option.noConfusion hc

/-- C1 amended: while the model is not loaded the track-loop step skips the
frame entirely — no pipeline run, no mock synthesis, nothing sent, state
unchanged; while the model is loaded the step runs `process_frame` and
delivers its result over the side channel exactly when a channel is
registered for the connection and its `readyState` is `"open"`, dropping
the result otherwise. -/
theorem C1_amended_loop_delivery (registered : Bool) (readyState : String)
    (s : ServerState) (fw fh : ℕ) (fid : String) (cts rts now : ℤ)
    (infer : Except Unit (List (List ℚ))) (lat : ℚ) :
    (s.model_loaded = false →
      trackStep registered readyState s fw fh fid cts rts now infer lat =
        (s, none)) ∧
    (s.model_loaded = true →
      trackStep registered readyState s fw fh fid cts rts now infer lat =
        ((process_frame s fw fh fid cts rts now infer lat).1,
         if registered = true ∧ readyState = "open" then
           some (process_frame s fw fh fid cts rts now infer lat).2
         else none)) := by
  constructor
  · intro h
    simp [trackStep, h]
  · intro h
    simp only [trackStep, h, if_true]
    cases registered with
    | false => simp
    | true =>
      by_cases hrs : readyState = "open"
      · simp [hrs]
      · simp [hrs]

/-- Witness for C1 at the freshly constructed (mock-mode) server state. -/
theorem C1_witness :
    trackStep true ("open") initServer 2 2 "f" 0 0 0 (Except.error ()) 1 =
      (initServer, none) :=
  (C1_amended_loop_delivery true ("open") initServer 2 2 "f" 0 0 0
    (Except.error ()) 1).1 rfl

/-- C7 counterexample: the rank-4 declared shape `[1, 3, -1, -1]` (dynamic
spatial dimensions) has dimension 1 equal to 3, yet the resolver yields the
640×640 default instead of ChannelFirst with height and width taken from
dimensions 2 and 3, because the code additionally requires those dimensions
to be positive. -/
theorem C7_counterexample :
    resolveInputMeta (some [1, 3, -1, -1]) = (Layout.NCHW, 640, 640) ∧
    ¬ (∀ shape : List ℤ, shape.length = 4 → shape.getD 1 0 = 3 →
        resolveInputMeta (some shape) =
          (Layout.NCHW, shape.getD 2 0, shape.getD 3 0)) := by
  constructor
  · decide
  · intro hclaim
    have hc := hclaim [1, 3, -1, -1] (by decide) (by decide)
    rw [show resolveInputMeta (some [1, 3, -1, -1]) =
        (Layout.NCHW, 640, 640) from by decide] at hc
    exact absurd hc (by decide)

/-- C7 amended: for a rank-4 declared shape the resolver yields ChannelFirst
with height = dimension 2 and width = dimension 3 when dimension 1 equals 3
and dimensions 2 and 3 are positive; otherwise ChannelLast with height =
dimension 1 and width = dimension 2 when dimension 3 equals 3 and
dimensions 1 and 2 are positive; and the 640×640 ChannelFirst default in
every other case, for non-rank-4 shapes, and on metadata inspection
failure; in particular `[1, 3, 640, 640]` resolves to ChannelFirst
640×640. -/
theorem C7_amended_layout_resolution (shape : List ℤ) :
    (shape.length = 4 →
      (shape.getD 1 0 = 3 ∧ 0 < shape.getD 2 0 ∧ 0 < shape.getD 3 0 →
        resolveInputMeta (some shape) =
          (Layout.NCHW, shape.getD 2 0, shape.getD 3 0)) ∧
      (¬(shape.getD 1 0 = 3 ∧ 0 < shape.getD 2 0 ∧ 0 < shape.getD 3 0) →
        shape.getD 3 0 = 3 ∧ 0 < shape.getD 1 0 ∧ 0 < shape.getD 2 0 →
        resolveInputMeta (some shape) =
          (Layout.NHWC, shape.getD 1 0, shape.getD 2 0)) ∧
      (¬(shape.getD 1 0 = 3 ∧ 0 < shape.getD 2 0 ∧ 0 < shape.getD 3 0) →
        ¬(shape.getD 3 0 = 3 ∧ 0 < shape.getD 1 0 ∧ 0 < shape.getD 2 0) →
        resolveInputMeta (some shape) = (Layout.NCHW, 640, 640))) ∧
    (shape.length ≠ 4 → resolveInputMeta (some shape) = (Layout.NCHW, 640, 640)) ∧
    resolveInputMeta none = (Layout.NCHW, 640, 640) ∧
    resolveInputMeta (some [1, 3, 640, 640]) = (Layout.NCHW, 640, 640) := by
  refine ⟨?_, ?_, rfl, by decide⟩
  · intro h4
    refine ⟨?_, ?_, ?_⟩
    · intro hcond
      simp only [resolveInputMeta]
      rw [if_pos h4, if_pos hcond, if_pos hcond.2.1, if_pos hcond.2.2]
    · intro hneg hcond
      simp only [resolveInputMeta]
      rw [if_pos h4, if_neg hneg, if_pos hcond, if_pos hcond.2.1,
        if_pos hcond.2.2]
    · intro hneg1 hneg2
      simp only [resolveInputMeta]
      rw [if_pos h4, if_neg hneg1, if_neg hneg2]
  · intro h4
    simp only [resolveInputMeta]
    rw [if_neg h4]

/-- Witness for C7 at the concrete scenario shape `[1, 3, 640, 640]`. -/
theorem C7_witness :
    resolveInputMeta (some [1, 3, 640, 640]) =
      (Layout.NCHW, List.getD [(1 : ℤ), 3, 640, 640] 2 0,
        List.getD [(1 : ℤ), 3, 640, 640] 3 0) :=
  ((C7_amended_layout_resolution [1, 3, 640, 640]).1 (by decide)).1 (by decide)

end WebRTCDetection
